import Mathlib

/-!
Verification of the snapcrab MIR interpreter core: a shallow embedding of
the value model (`src/snapcrab/src/value.rs`, `src/snapcrab/src/stack.rs`),
the memory sanitizer (`src/snapcrab/src/memory/sanitizer.rs`), the segmented
memory model (`src/snapcrab/src/memory.rs`, `src/snapcrab/src/memory/stack.rs`),
the operator evaluator (`src/snapcrab/src/interpreter/rvalue.rs`), and the
control-flow engine (`src/snapcrab/src/interpreter/function.rs`,
`src/snapcrab/src/interpreter.rs`), together with theorems settling the
spec's claims about them.

Machine integers are modelled as mathematical integers with explicit
two's-complement encoding into little-endian byte lists; fallible Rust code
returns `Except`/`Option` (with `Option.none` standing for a panic/abort).
-/

set_option maxRecDepth 100000

namespace Snapcrab

/-! ## Little-endian byte encoding

`Value` in `value.rs`/`stack.rs` is a raw byte buffer; integers are stored
in little-endian order (`to_le_bytes` / zerocopy `read_from_bytes`).
Bytes are modelled as naturals below 256.
-/

/-- Encode `n` into `w` little-endian bytes (truncating to `2 ^ (8 * w)`),
mirroring Rust `to_le_bytes`. -/
def encodeLE : Nat → Nat → List Nat
  | 0, _ => []
  | w + 1, n => (n % 256) :: encodeLE w (n / 256)

/-- Decode a little-endian byte list to a natural, mirroring `from_le_bytes`. -/
def decodeLE (l : List Nat) : Nat :=
  l.foldr (fun b acc => b + 256 * acc) 0

theorem encodeLE_length (w n : Nat) : (encodeLE w n).length = w := by
  induction w generalizing n with
  | zero => rfl
  | succ w ih => simp [encodeLE, ih]

theorem decodeLE_encodeLE (w n : Nat) : decodeLE (encodeLE w n) = n % 256 ^ w := by
  induction w generalizing n with
  | zero =>
    simp [encodeLE, decodeLE, Nat.mod_one]
  | succ w ih =>
    have hfold : decodeLE (encodeLE (w + 1) n)
        = n % 256 + 256 * decodeLE (encodeLE w (n / 256)) := rfl
    rw [hfold, ih, pow_succ, mul_comm (256 ^ w) 256, Nat.mod_mul]

theorem encodeLE_bytes_lt (w n : Nat) : ∀ b ∈ encodeLE w n, b < 256 := by
  induction w generalizing n with
  | zero => simp [encodeLE]
  | succ w ih =>
    intro b hb
    simp only [encodeLE, List.mem_cons] at hb
    rcases hb with h | h
    · omega
    · exact ih (n / 256) b h

theorem decodeLE_lt (l : List Nat) (h : ∀ b ∈ l, b < 256) :
    decodeLE l < 256 ^ l.length := by
  induction l with
  | nil => simp [decodeLE]
  | cons b rest ih =>
    have hb : b < 256 := h b (List.mem_cons_self ..)
    have hrest := ih (fun x hx => h x (List.mem_cons_of_mem _ hx))
    have : decodeLE (b :: rest) = b + 256 * decodeLE rest := rfl
    rw [this, List.length_cons, pow_succ, mul_comm (256 ^ rest.length) 256]
    omega

theorem two_pow_eq_256_pow (w : Nat) : 2 ^ (8 * w) = 256 ^ w := by
  rw [pow_mul]
  norm_num

/-! ## Value model

`Value` (`value.rs` for the current memory model, and the identical
byte-buffer representation in `stack.rs` used by the cited interpreter
iterations) is a raw byte buffer.  `from_type` copies the little-endian byte
representation; `as_type::<T>` succeeds only when the byte length equals
`size_of::<T>()` (zerocopy `read_from_bytes`); `from_bool`/`as_bool` use one
byte with nonzero meaning `true`.
-/

/-- A runtime value: a raw byte buffer (`Value` in `value.rs`). -/
structure Value where
  data : List Nat
  deriving DecidableEq, Repr

/-- A value is well formed when every buffer entry is an actual byte. -/
def Value.Wf (v : Value) : Prop := ∀ b ∈ v.data, b < 256

instance (v : Value) : Decidable v.Wf := by
  unfold Value.Wf
  infer_instance

/-- `Value::unit()`: the canonical zero-sized value. -/
def Value.unit : Value := ⟨[]⟩

/-- `Value::len()` (= size in bytes). -/
def Value.len (v : Value) : Nat := v.data.length

/-- `Value::from_bytes`. -/
def Value.from_bytes (bytes : List Nat) : Value := ⟨bytes⟩

/-- `Value::from_bool`: one byte, 1 for true and 0 for false. -/
def Value.from_bool (b : Bool) : Value := ⟨[if b then 1 else 0]⟩

/-- `Value::as_bool`: succeeds only on one-byte values; nonzero is true. -/
def Value.as_bool (v : Value) : Option Bool :=
  match v.data with
  | [b] => some (b != 0)
  | _ => none

/-- `Value::as_type::<T>` for an unsigned integer type of `w` bytes:
succeeds exactly when the byte length matches, decoding little-endian. -/
def Value.as_uint (w : Nat) (v : Value) : Option Nat :=
  if v.data.length = w then some (decodeLE v.data) else none

/-- Reinterpret an unsigned `w`-byte pattern as a signed two's-complement
integer (zerocopy reads of `iN` little-endian bytes). -/
def toSigned (w : Nat) (n : Nat) : Int :=
  if n < 2 ^ (8 * w - 1) then (n : Int) else (n : Int) - 2 ^ (8 * w)

/-- `Value::as_type::<T>` for a signed integer type of `w` bytes. -/
def Value.as_int (w : Nat) (v : Value) : Option Int :=
  (v.as_uint w).map (toSigned w)

/-- `Value::from_type::<T>` for an unsigned integer type of `w` bytes:
copy the little-endian byte representation. -/
def Value.of_uint (w n : Nat) : Value := ⟨encodeLE w n⟩

/-- `Value::from_type::<T>` for a signed integer type of `w` bytes:
copy the little-endian two's-complement byte representation. -/
def Value.of_int (w : Nat) (i : Int) : Value :=
  ⟨encodeLE w (i.emod (2 ^ (8 * w))).toNat⟩

/-- `Value::from_i128` (`stack.rs`): the 16-byte representation. -/
def Value.from_i128 (i : Int) : Value := Value.of_int 16 i

/-- `Value::from_u128` (`stack.rs`): the 16-byte representation. -/
def Value.from_u128 (n : Nat) : Value := Value.of_uint 16 n

/-- `Value::as_i128` (`stack.rs`): succeeds only on 16-byte values. -/
def Value.as_i128 (v : Value) : Option Int := v.as_int 16

/-- `Value::as_u128` (`stack.rs`): succeeds only on 16-byte values. -/
def Value.as_u128 (v : Value) : Option Nat := v.as_uint 16

theorem of_uint_len (w n : Nat) : (Value.of_uint w n).len = w :=
  encodeLE_length ..

theorem of_int_len (w : Nat) (i : Int) : (Value.of_int w i).len = w :=
  encodeLE_length ..

/-- Round trip for unsigned fixed-width values in range. -/
theorem as_uint_of_uint (w n : Nat) (h : n < 2 ^ (8 * w)) :
    (Value.of_uint w n).as_uint w = some n := by
  unfold Value.of_uint Value.as_uint
  rw [two_pow_eq_256_pow] at h
  simp [encodeLE_length, decodeLE_encodeLE, Nat.mod_eq_of_lt h]

/-- Two's-complement key fact: encoding an in-range signed integer with
`emod`-then-`toNat` and decoding with `toSigned` is the identity. -/
theorem toSigned_emod_toNat (w : Nat) (hw : 1 ≤ w) (i : Int)
    (hlo : -(2 ^ (8 * w - 1)) ≤ i) (hhi : i < 2 ^ (8 * w - 1)) :
    toSigned w (i.emod (2 ^ (8 * w))).toNat = i := by
  obtain ⟨H, hH⟩ : ∃ H : Nat, (2 : Nat) ^ (8 * w - 1) = H := ⟨_, rfl⟩
  have hM : (2 : Nat) ^ (8 * w) = 2 * H := by
    rw [← hH]
    conv_lhs => rw [show 8 * w = (8 * w - 1) + 1 from by omega, pow_succ]
    ring
  have hHpos : 0 < H := by rw [← hH]; positivity
  have hIntH : (2 : Int) ^ (8 * w - 1) = (H : Int) := by
    rw [← hH]; push_cast; rfl
  have hIntM : (2 : Int) ^ (8 * w) = ((2 * H : Nat) : Int) := by
    rw [← hM]; push_cast; rfl
  rw [hIntH] at hlo hhi
  unfold toSigned
  rw [hH, hIntM]
  have hXpos : (0 : Int) < ((2 * H : Nat) : Int) := by push_cast; omega
  rcases le_or_lt 0 i with hpos | hneg
  · have hemod : i.emod ((2 * H : Nat) : Int) = i := by
      apply Int.emod_eq_of_lt hpos
      push_cast
      omega
    rw [hemod]
    have hcond : i.toNat < H := by omega
    rw [if_pos hcond]
    omega
  · have hemod : i.emod ((2 * H : Nat) : Int) = i + ((2 * H : Nat) : Int) := by
      push_cast
      have h0 := Int.add_mul_emod_self_left (a := i) (b := 2 * (H : Int)) (c := 1)
      rw [mul_one] at h0
      show i % (2 * (H : Int)) = i + 2 * (H : Int)
      rw [← h0]
      apply Int.emod_eq_of_lt
      · omega
      · omega
    rw [hemod]
    have hcond : ¬ (i + ((2 * H : Nat) : Int)).toNat < H := by
      push_cast
      omega
    rw [if_neg hcond]
    push_cast
    omega

/-- Round trip for signed fixed-width values in range. -/
theorem as_int_of_int (w : Nat) (i : Int) (hw : 1 ≤ w)
    (hlo : -(2 ^ (8 * w - 1)) ≤ i) (hhi : i < 2 ^ (8 * w - 1)) :
    (Value.of_int w i).as_int w = some i := by
  unfold Value.of_int Value.as_int Value.as_uint
  have hMpos : (0 : Int) < 2 ^ (8 * w) := by positivity
  have hnonneg : 0 ≤ i.emod (2 ^ (8 * w)) := Int.emod_nonneg i (by positivity)
  have hlt : i.emod (2 ^ (8 * w)) < 2 ^ (8 * w) := Int.emod_lt_of_pos i hMpos
  have hmlt256 : (i.emod (2 ^ (8 * w))).toNat < 256 ^ w := by
    rw [← two_pow_eq_256_pow]
    have hcast : (((2 : Nat) ^ (8 * w) : Nat) : Int) = (2 : Int) ^ (8 * w) := by
      push_cast; rfl
    omega
  simp [encodeLE_length, decodeLE_encodeLE, Nat.mod_eq_of_lt hmlt256,
    toSigned_emod_toNat w hw i hlo hhi]

theorem as_uint_len_mismatch (v : Value) (w : Nat) (h : v.len ≠ w) :
    v.as_uint w = none := by
  have h2 : ¬ v.data.length = w := h
  unfold Value.as_uint
  rw [if_neg h2]

theorem as_int_len_mismatch (v : Value) (w : Nat) (h : v.len ≠ w) :
    v.as_int w = none := by
  unfold Value.as_int
  rw [as_uint_len_mismatch v w h]
  rfl

theorem as_bool_len_mismatch (v : Value) (h : v.len ≠ 1) : v.as_bool = none := by
  obtain ⟨data⟩ := v
  cases data with
  | nil => rfl
  | cons a tail =>
    cases tail with
    | nil => exact absurd rfl h
    | cons b tl => rfl

/-- Claim C9: constructing a `Value` from a fixed-width integer or boolean
copies its little-endian byte representation, and reinterpreting it back as
the same type returns exactly the original; reinterpreting any `Value` as a
fixed-width type whose size differs from the `Value`'s byte length returns
`None` rather than coercing. -/
theorem value_roundtrip_exact :
    (∀ w n : Nat, n < 2 ^ (8 * w) → (Value.of_uint w n).as_uint w = some n)
    ∧ (∀ (w : Nat) (i : Int), 1 ≤ w → -(2 ^ (8 * w - 1)) ≤ i → i < 2 ^ (8 * w - 1) →
        (Value.of_int w i).as_int w = some i)
    ∧ (∀ b : Bool, (Value.from_bool b).as_bool = some b)
    ∧ (∀ (v : Value) (w : Nat), v.len ≠ w → v.as_uint w = none ∧ v.as_int w = none)
    ∧ (∀ v : Value, v.len ≠ 1 → v.as_bool = none) := by
  refine ⟨as_uint_of_uint, as_int_of_int, ?_, ?_, as_bool_len_mismatch⟩
  · intro b
    cases b <;> rfl
  · intro v w h
    exact ⟨as_uint_len_mismatch v w h, as_int_len_mismatch v w h⟩

/-- Witness for C9 at concrete inputs. -/
theorem value_roundtrip_exact_witness :
    (Value.of_uint 4 1000).as_uint 4 = some 1000
    ∧ (Value.of_int 1 (-1)).as_int 1 = some (-1)
    ∧ (Value.from_bool true).as_bool = some true
    ∧ (Value.of_uint 4 7).as_uint 2 = none := by
  refine ⟨?_, ?_, ?_, ?_⟩
  · exact value_roundtrip_exact.1 4 1000 (by norm_num)
  · exact value_roundtrip_exact.2.1 1 (-1) (by norm_num) (by norm_num) (by norm_num)
  · exact value_roundtrip_exact.2.2.1 true
  · exact (value_roundtrip_exact.2.2.2.1 (Value.of_uint 4 7) 2 (by decide)).1

/-! ## Memory sanitizer (`memory/sanitizer.rs`)

`MemorySanitizer` holds a `BTreeMap<usize, usize>` from allocation start
address to size, modelled as an association list with unique keys.
`register_alloc`/`deregister_alloc` skip empty buffers; the fatal
assertion/panic paths are modelled as `Option.none`.
-/

/-- The allocation map: (start address, size) entries. -/
abbrev San := List (Nat × Nat)

/-- `BTreeMap::insert` (sorted insertion, replacing an equal key). -/
def sanInsert : San → Nat → Nat → San
  | [], k, v => [(k, v)]
  | (k1, v1) :: rest, k, v =>
    if k < k1 then (k, v) :: (k1, v1) :: rest
    else if k = k1 then (k, v) :: rest
    else (k1, v1) :: sanInsert rest k v

/-- `BTreeMap::remove`: `some` of the map without the entry when the key is
present, `none` when absent. -/
def sanRemove : San → Nat → Option San
  | [], _ => none
  | (k1, v1) :: rest, k =>
    if k = k1 then some rest
    else (sanRemove rest k).map (fun r => (k1, v1) :: r)

/-- `MemorySanitizer::has_overlap`: the `a1 < b2 && b1 < a2` interval test
against every registered entry. -/
def hasOverlap (s : San) (addr size : Nat) : Bool :=
  s.any (fun p => decide (addr < p.1 + p.2) && decide (p.1 < addr + size))

/-- `MemorySanitizer::register_alloc`; empty buffers are skipped, and the
fatal overlap assertion is modelled as `none`. -/
def registerAlloc (s : San) (addr size : Nat) : Option San :=
  if size = 0 then some s
  else if hasOverlap s addr size = true then none
  else some (sanInsert s addr size)

/-- `MemorySanitizer::deregister_alloc`; empty buffers are skipped, and the
fatal "no allocation found" panic is modelled as `none`. -/
def deregisterAlloc (s : San) (addr size : Nat) : Option San :=
  if size = 0 then some s
  else sanRemove s addr

/-- `BTreeMap::range(..=address).next_back()`: the entry with the greatest
start address not exceeding `address`. -/
def sanPred : San → Nat → Option (Nat × Nat)
  | [], _ => none
  | p :: rest, addr =>
    match sanPred rest addr with
    | none => if p.1 ≤ addr then some p else none
    | some q =>
      if p.1 ≤ addr then (if q.1 < p.1 then some p else some q)
      else some q

/-- `MemorySanitizer::contains`: predecessor lookup, then a range check
inside that single allocation. -/
def sanContains (s : San) (addr size : Nat) : Bool :=
  match sanPred s addr with
  | some (start, sz) => decide (start ≤ addr) && decide (addr + size ≤ start + sz)
  | none => false

theorem hasOverlap_iff (s : San) (addr size : Nat) :
    hasOverlap s addr size = true
      ↔ ∃ p ∈ s, addr < p.1 + p.2 ∧ p.1 < addr + size := by
  simp [hasOverlap, List.any_eq_true]

/-- Claim C10: registering or deregistering a zero-length buffer returns
normally and leaves the allocation map unchanged; neither the fatal overlap
abort nor the fatal "no allocation found" abort can trigger. -/
theorem zero_length_buffers_are_noops :
    ∀ (s : San) (addr : Nat),
      registerAlloc s addr 0 = some s ∧ deregisterAlloc s addr 0 = some s := by
  intro s addr
  exact ⟨rfl, rfl⟩

/-- Claim C5: for a non-empty range, registration fails exactly when the new
range intersects some already-registered entry under the
`a1 < b2 && b1 < a2` test; ranges disjoint from every entry (including
exactly adjacent ones) register successfully. -/
theorem register_overlap_iff :
    ∀ (s : San) (addr size : Nat), 0 < size →
      ((registerAlloc s addr size = none
          ↔ ∃ p ∈ s, addr < p.1 + p.2 ∧ p.1 < addr + size)
        ∧ ((∀ p ∈ s, p.1 + p.2 ≤ addr ∨ addr + size ≤ p.1) →
            (registerAlloc s addr size).isSome = true)) := by
  intro s addr size hpos
  have hsz : ¬ size = 0 := by omega
  constructor
  · unfold registerAlloc
    rw [if_neg hsz]
    by_cases hov : hasOverlap s addr size = true
    · rw [if_pos hov]
      exact ⟨fun _ => (hasOverlap_iff s addr size).mp hov, fun _ => rfl⟩
    · rw [if_neg hov]
      exact iff_of_false (by simp) (fun hex => hov ((hasOverlap_iff s addr size).mpr hex))
  · intro hdisj
    unfold registerAlloc
    rw [if_neg hsz]
    have hov : ¬ hasOverlap s addr size = true := by
      intro hov
      obtain ⟨p, hp, h1, h2⟩ := (hasOverlap_iff s addr size).mp hov
      rcases hdisj p hp with h | h <;> omega
    rw [if_neg hov]
    rfl

/-- Witness for C5 at concrete inputs: a partially overlapping range fails,
and an exactly adjacent range succeeds. -/
theorem register_overlap_iff_witness :
    ((registerAlloc [(10, 5)] 12 4 = none
        ↔ ∃ p ∈ [((10 : Nat), (5 : Nat))], 12 < p.1 + p.2 ∧ p.1 < 12 + 4)
      ∧ ((∀ p ∈ [((10 : Nat), (5 : Nat))], p.1 + p.2 ≤ 12 ∨ 12 + 4 ≤ p.1) →
          (registerAlloc [(10, 5)] 12 4).isSome = true))
    ∧ ((registerAlloc [(10, 5)] 15 4 = none
        ↔ ∃ p ∈ [((10 : Nat), (5 : Nat))], 15 < p.1 + p.2 ∧ p.1 < 15 + 4)
      ∧ ((∀ p ∈ [((10 : Nat), (5 : Nat))], p.1 + p.2 ≤ 15 ∨ 15 + 4 ≤ p.1) →
          (registerAlloc [(10, 5)] 15 4).isSome = true)) :=
  ⟨register_overlap_iff [(10, 5)] 12 4 (by decide),
   register_overlap_iff [(10, 5)] 15 4 (by decide)⟩

theorem sanPred_mem (s : San) (addr : Nat) (q : Nat × Nat)
    (h : sanPred s addr = some q) : q ∈ s ∧ q.1 ≤ addr := by
  induction s with
  | nil => simp [sanPred] at h
  | cons p rest ih =>
    cases hr : sanPred rest addr with
    | none =>
      simp only [sanPred, hr] at h
      by_cases hp : p.1 ≤ addr
      · rw [if_pos hp] at h
        obtain rfl : p = q := Option.some_injective _ h
        exact ⟨List.mem_cons_self .., hp⟩
      · rw [if_neg hp] at h
        exact Option.noConfusion h
    | some q1 =>
      simp only [sanPred, hr] at h
      by_cases hp : p.1 ≤ addr
      · rw [if_pos hp] at h
        by_cases hq1 : q1.1 < p.1
        · rw [if_pos hq1] at h
          obtain rfl : p = q := Option.some_injective _ h
          exact ⟨List.mem_cons_self .., hp⟩
        · rw [if_neg hq1] at h
          obtain rfl : q1 = q := Option.some_injective _ h
          obtain ⟨hm, hle⟩ := ih hr
          exact ⟨List.mem_cons_of_mem _ hm, hle⟩
      · rw [if_neg hp] at h
        obtain rfl : q1 = q := Option.some_injective _ h
        obtain ⟨hm, hle⟩ := ih hr
        exact ⟨List.mem_cons_of_mem _ hm, hle⟩

theorem sanPred_is_max (s : San) (addr : Nat) (p : Nat × Nat)
    (hm : p ∈ s) (hle : p.1 ≤ addr) :
    ∃ q, sanPred s addr = some q ∧ p.1 ≤ q.1 := by
  induction s with
  | nil => simp at hm
  | cons hd rest ih =>
    rcases List.mem_cons.mp hm with rfl | hm1
    · cases hr : sanPred rest addr with
      | none =>
        exact ⟨p, by simp only [sanPred, hr, if_pos hle], le_refl _⟩
      | some q1 =>
        by_cases hq1 : q1.1 < p.1
        · exact ⟨p, by simp only [sanPred, hr, if_pos hle, if_pos hq1], le_refl _⟩
        · exact ⟨q1, by simp only [sanPred, hr, if_pos hle, if_neg hq1], by omega⟩
    · obtain ⟨q1, hq1, hpq1⟩ := ih hm1
      by_cases hhd : hd.1 ≤ addr
      · by_cases hlt : q1.1 < hd.1
        · exact ⟨hd, by simp only [sanPred, hq1, if_pos hhd, if_pos hlt], by omega⟩
        · exact ⟨q1, by simp only [sanPred, hq1, if_pos hhd, if_neg hlt], hpq1⟩
      · exact ⟨q1, by simp only [sanPred, hq1, if_neg hhd], hpq1⟩

/-- Claim C6: `contains(addr, size)` holds exactly when `[addr, addr+size)`
lies entirely within a single registered allocation (for any allocation map
with positive, pairwise non-overlapping entries, as maintained by
registration); and registering `(addr, size)` into an empty sanitizer makes
`contains(addr, size)` true while `contains(addr-1, 1)` and
`contains(addr+size, 1)` are false. -/
theorem contains_iff_within_single_alloc :
    (∀ (s : San) (addr size : Nat),
      (∀ p ∈ s, 0 < p.2) →
      s.Pairwise (fun p q => p.1 + p.2 ≤ q.1 ∨ q.1 + q.2 ≤ p.1) →
      (sanContains s addr size = true
        ↔ ∃ p ∈ s, p.1 ≤ addr ∧ addr + size ≤ p.1 + p.2))
    ∧ (∀ addr size : Nat, 0 < size → 1 ≤ addr →
        registerAlloc [] addr size = some [(addr, size)]
        ∧ sanContains [(addr, size)] addr size = true
        ∧ sanContains [(addr, size)] (addr - 1) 1 = false
        ∧ sanContains [(addr, size)] (addr + size) 1 = false) := by
  constructor
  · intro s addr size hpos hdisj
    constructor
    · intro h
      unfold sanContains at h
      cases hq : sanPred s addr with
      | none => rw [hq] at h; simp at h
      | some q =>
        obtain ⟨qa, qb⟩ := q
        rw [hq] at h
        obtain ⟨hmem, -⟩ := sanPred_mem s addr (qa, qb) hq
        have h2 : qa ≤ addr ∧ addr + size ≤ qa + qb := by simpa using h
        exact ⟨(qa, qb), hmem, h2.1, h2.2⟩
    · intro ⟨p, hmem, hp1, hp2⟩
      obtain ⟨q, hq, hpq⟩ := sanPred_is_max s addr p hmem hp1
      obtain ⟨hqmem, hqle⟩ := sanPred_mem s addr q hq
      have hqcheck : addr + size ≤ q.1 + q.2 := by
        by_cases hpqeq : p = q
        · subst hpqeq
          exact hp2
        · have hrel := List.Pairwise.forall
            (fun a b hab => hab.symm) hdisj hmem hqmem hpqeq
          have hq2 := hpos q hqmem
          rcases hrel with h | h <;> omega
      unfold sanContains
      rw [hq]
      simp only [Bool.and_eq_true, decide_eq_true_eq]
      exact ⟨hqle, hqcheck⟩
  · intro addr size hsz haddr
    have h1 : ¬ size = 0 := by omega
    refine ⟨?_, ?_, ?_, ?_⟩
    · simp [registerAlloc, hasOverlap, h1, sanInsert]
    · simp [sanContains, sanPred]
    · have hlt : ¬ addr ≤ addr - 1 := by omega
      simp [sanContains, sanPred, hlt]
    · have hle : addr ≤ addr + size := by omega
      have hnle : ¬ (addr + size + 1 ≤ addr + size) := by omega
      simp [sanContains, sanPred, hle, hnle]

/-- Witness for C6 at concrete inputs. -/
theorem contains_iff_within_single_alloc_witness :
    (sanContains [(10, 5)] 12 2 = true
      ↔ ∃ p ∈ [((10 : Nat), (5 : Nat))], p.1 ≤ 12 ∧ 12 + 2 ≤ p.1 + p.2)
    ∧ (registerAlloc [] 100 4 = some [(100, 4)]
        ∧ sanContains [(100, 4)] 100 4 = true
        ∧ sanContains [(100, 4)] 99 1 = false
        ∧ sanContains [(100, 4)] 104 1 = false) :=
  ⟨contains_iff_within_single_alloc.1 [(10, 5)] 12 2 (by decide) (by decide),
   contains_iff_within_single_alloc.2 100 4 (by decide) (by decide)⟩

/-! ## Stack frame lifecycle (`memory/stack.rs`)

`Stack::with_stack_frame` allocates the callee's frame, registers it with
the sanitizer and pushes it, runs the body, then asserts the top frame is
the one pushed, deregisters it and pops it — unconditionally, whatever the
body returned.  A frame is identified by its (base address, buffer size)
pair; `none` models a panic (failed sanitizer assertion, unwrap on an empty
frame stack, or a panic escaping the body).
-/

/-- The stack-relevant state of `ThreadMemory`: the stack sanitizer and the
stack of frame buffers (base address, size). -/
structure MemState where
  san : San
  frames : List (Nat × Nat)
  deriving DecidableEq, Repr

/-- `Stack::with_stack_frame`: register + push, run the body, assert the
top-of-stack identity, deregister + pop, and pass the body's result
through unchanged. -/
def withStackFrame {R : Type} (fr : Nat × Nat)
    (func : MemState → Option (R × MemState)) (s : MemState) :
    Option (R × MemState) :=
  match registerAlloc s.san fr.1 fr.2 with
  | none => none
  | some san1 =>
    match func ⟨san1, s.frames ++ [fr]⟩ with
    | none => none
    | some (r, s2) =>
      match s2.frames.getLast? with
      | none => none
      | some last =>
        if last.1 = fr.1 then
          match deregisterAlloc s2.san last.1 last.2 with
          | none => none
          | some san2 => some (r, ⟨san2, s2.frames.dropLast⟩)
        else none

/-- A chain of nested calls: each level runs `with_stack_frame` around the
next; the innermost body just produces `res` (a success or a propagated
error). -/
def nestedCalls (res : Except String Value) :
    List (Nat × Nat) → MemState → Option (Except String Value × MemState)
  | [], s => some (res, s)
  | fr :: rest, s => withStackFrame fr (fun s2 => nestedCalls res rest s2) s

theorem mem_sanInsert (s : San) (k v : Nat) (p : Nat × Nat)
    (h : p ∈ sanInsert s k v) : p = (k, v) ∨ p ∈ s := by
  induction s with
  | nil =>
    simp [sanInsert] at h
    exact Or.inl h
  | cons hd rest ih =>
    simp only [sanInsert] at h
    by_cases h1 : k < hd.1
    · rw [if_pos h1] at h
      rcases List.mem_cons.mp h with h2 | h2
      · exact Or.inl h2
      · exact Or.inr h2
    · rw [if_neg h1] at h
      by_cases h2 : k = hd.1
      · rw [if_pos h2] at h
        rcases List.mem_cons.mp h with h3 | h3
        · exact Or.inl h3
        · exact Or.inr (List.mem_cons_of_mem _ h3)
      · rw [if_neg h2] at h
        rcases List.mem_cons.mp h with h3 | h3
        · exact Or.inr (by rw [h3]; exact List.mem_cons_self ..)
        · rcases ih h3 with h4 | h4
          · exact Or.inl h4
          · exact Or.inr (List.mem_cons_of_mem _ h4)

theorem sanRemove_sanInsert (s : San) (k v : Nat) (h : ∀ p ∈ s, p.1 ≠ k) :
    sanRemove (sanInsert s k v) k = some s := by
  induction s with
  | nil => simp [sanInsert, sanRemove]
  | cons hd rest ih =>
    have hhd : hd.1 ≠ k := h hd (List.mem_cons_self ..)
    simp only [sanInsert]
    by_cases h1 : k < hd.1
    · rw [if_pos h1]
      simp [sanRemove]
    · rw [if_neg h1]
      by_cases h2 : k = hd.1
      · exact absurd h2.symm hhd
      · rw [if_neg h2]
        have hrec := ih (fun p hp => h p (List.mem_cons_of_mem _ hp))
        simp only [sanRemove]
        rw [if_neg h2, hrec]
        rfl

/-- Claim C2: along any chain of nested `with_stack_frame` calls (of any
depth) whose frames are nonempty, pairwise non-overlapping and disjoint
from the already-registered allocations, the chain completes without
tripping a sanitizer abort and restores the sanitizer and the frame stack
exactly to their previous contents — for a successful result and a
propagated error alike.  Starting from the empty memory state, the
sanitizer again holds zero registered allocations once the outermost call
returns. -/
theorem nested_calls_restore_state :
    ∀ (frames : List (Nat × Nat)) (res : Except String Value) (s : MemState),
      (∀ f ∈ frames, 0 < f.2) →
      (∀ p ∈ s.san, 0 < p.2) →
      (∀ f ∈ frames, ∀ p ∈ s.san, ¬(f.1 < p.1 + p.2 ∧ p.1 < f.1 + f.2)) →
      frames.Pairwise (fun f g => ¬(f.1 < g.1 + g.2 ∧ g.1 < f.1 + f.2)) →
      nestedCalls res frames s = some (res, s) := by
  intro frames
  induction frames with
  | nil =>
    intro res s _ _ _ _
    rfl
  | cons f rest ih =>
    intro res s hfpos hspos hdisj hpair
    obtain ⟨ssan, sframes⟩ := s
    have hf2 : 0 < f.2 := hfpos f (List.mem_cons_self ..)
    have hfz : ¬ f.2 = 0 := by omega
    have hnov : ¬ hasOverlap ssan f.1 f.2 = true := by
      intro hov
      obtain ⟨p, hp, h1, h2⟩ := (hasOverlap_iff ssan f.1 f.2).mp hov
      exact hdisj f (List.mem_cons_self ..) p hp ⟨h1, h2⟩
    have hreg : registerAlloc ssan f.1 f.2 = some (sanInsert ssan f.1 f.2) := by
      unfold registerAlloc
      rw [if_neg hfz, if_neg hnov]
    have hrest : nestedCalls res rest ⟨sanInsert ssan f.1 f.2, sframes ++ [f]⟩
        = some (res, ⟨sanInsert ssan f.1 f.2, sframes ++ [f]⟩) := by
      apply ih res
      · exact fun g hg => hfpos g (List.mem_cons_of_mem _ hg)
      · intro p hp
        rcases mem_sanInsert ssan f.1 f.2 p hp with rfl | hmem
        · exact hf2
        · exact hspos p hmem
      · intro g hg p hp
        rcases mem_sanInsert ssan f.1 f.2 p hp with rfl | hmem
        · have hrel := (List.pairwise_cons.mp hpair).1 g hg
          simp only [not_and] at hrel ⊢
          intro h1 h2
          exact hrel h2 h1
        · exact hdisj g (List.mem_cons_of_mem _ hg) p hmem
      · exact (List.pairwise_cons.mp hpair).2
    have hkey : ∀ p ∈ ssan, p.1 ≠ f.1 := by
      intro p hp heq
      apply hdisj f (List.mem_cons_self ..) p hp
      have := hspos p hp
      omega
    have hderegfr : deregisterAlloc (sanInsert ssan f.1 f.2) f.1 f.2 = some ssan := by
      unfold deregisterAlloc
      rw [if_neg hfz]
      exact sanRemove_sanInsert ssan f.1 f.2 hkey
    show withStackFrame f (fun s2 => nestedCalls res rest s2) ⟨ssan, sframes⟩
        = some (res, ⟨ssan, sframes⟩)
    unfold withStackFrame
    rw [hreg]
    simp only [hrest, List.getLast?_concat, if_pos rfl, hderegfr,
      List.dropLast_concat, ite_true, eq_self_iff_true]

/-- Witness for C2: a depth-three chain returning a propagated error leaves
the empty state unchanged. -/
theorem nested_calls_restore_state_witness :
    nestedCalls (Except.error "propagated") [(100, 16), (200, 8), (300, 4)]
      ⟨[], []⟩ = some (Except.error "propagated", ⟨[], []⟩) :=
  nested_calls_restore_state [(100, 16), (200, 8), (300, 4)]
    (Except.error "propagated") ⟨[], []⟩ (by decide) (by decide) (by decide)
    (by decide)

/-! ## Segmented memory access (`memory.rs`, `memory/stack.rs`,
`memory/heap.rs`, `memory/statics.rs`)

`ThreadMemory::read_addr`/`write_addr` check alignment, then try the
stack, heap and statics segments.  Each segment's `read_addr` returns
either data, `OutOfBounds`or `NotFound`.  As implemented, the `Stack`
segment answers `OutOfBounds` whenever `sanitizer.contains` is false —
including when the base address lies in no stack allocation at all — and
the heap and statics segments are stubs that always answer `NotFound`.
Memory contents are modelled as a byte function.
-/

/-- The static size/alignment data of a type, as queried via
`ty.size()` / `ty.alignment()`. -/
structure TyInfo where
  size : Nat
  align : Nat
  deriving DecidableEq, Repr

/-- `MemoryAccessError` (`memory.rs`): its own documentation states that
`outOfBounds` means the base address is in the segment but the request is
out of bounds, and `notFound` means the base address is not in the
segment. -/
inductive MemAccessError
  | outOfBounds
  | notFound
  deriving DecidableEq, Repr

/-- The error outcomes of `ThreadMemory::read_addr`/`write_addr`, one per
`bail!` site. -/
inductive MemoryError
  | misaligned
  | stackOutOfBounds
  | heapOutOfBounds
  | staticsOutOfBounds
  | addressNotFound
  | dataSizeMismatch
  deriving DecidableEq, Repr

/-- `impl MemorySegment for Stack::read_addr`: data when the sanitizer
contains the whole range, `OutOfBounds` otherwise (never `NotFound`). -/
def stackReadAddr (san : San) (mem : Nat → Nat) (addr size : Nat) :
    Except MemAccessError (List Nat) :=
  if sanContains san addr size = true then
    Except.ok ((List.range size).map (fun i => mem (addr + i)))
  else Except.error MemAccessError.outOfBounds

/-- `impl MemorySegment for Heap::read_addr`: a stub that always answers
`NotFound`. -/
def heapReadAddr (_addr _size : Nat) : Except MemAccessError (List Nat) :=
  Except.error MemAccessError.notFound

/-- `impl MemorySegment for Statics::read_addr`: a stub that always answers
`NotFound`. -/
def staticsReadAddr (_addr _size : Nat) : Except MemAccessError (List Nat) :=
  Except.error MemAccessError.notFound

/-- `ThreadMemory::read_addr`: alignment check, then stack → heap → statics,
with `OutOfBounds` from a segment failing immediately and `NotFound`
falling through; `NotFound` from the last segment is "address not found in
any memory segment". -/
def threadReadAddr (stackSan : San) (mem : Nat → Nat) (addr : Nat)
    (ty : TyInfo) : Except MemoryError Value :=
  if addr % ty.align ≠ 0 then Except.error MemoryError.misaligned
  else
    match stackReadAddr stackSan mem addr ty.size with
    | Except.ok data => Except.ok (Value.from_bytes data)
    | Except.error MemAccessError.outOfBounds =>
      Except.error MemoryError.stackOutOfBounds
    | Except.error MemAccessError.notFound =>
      match heapReadAddr addr ty.size with
      | Except.ok data => Except.ok (Value.from_bytes data)
      | Except.error MemAccessError.outOfBounds =>
        Except.error MemoryError.heapOutOfBounds
      | Except.error MemAccessError.notFound =>
        match staticsReadAddr addr ty.size with
        | Except.ok data => Except.ok (Value.from_bytes data)
        | Except.error MemAccessError.outOfBounds =>
          Except.error MemoryError.staticsOutOfBounds
        | Except.error MemAccessError.notFound =>
          Except.error MemoryError.addressNotFound

/-- `impl MemorySegment for Stack::write_addr`, same containment rule. -/
def stackWriteAddr (san : San) (mem : Nat → Nat) (addr : Nat)
    (data : List Nat) : Except MemAccessError (Nat → Nat) :=
  if sanContains san addr data.length = true then
    Except.ok (fun a =>
      if addr ≤ a ∧ a < addr + data.length then data.getD (a - addr) 0 else mem a)
  else Except.error MemAccessError.outOfBounds

/-- `ThreadMemory::write_addr`: alignment check, then the data-size check
against `size_of(type)`, then the same stack → heap → statics chain. -/
def threadWriteAddr (stackSan : San) (mem : Nat → Nat) (addr : Nat)
    (data : List Nat) (ty : TyInfo) : Except MemoryError (Nat → Nat) :=
  if addr % ty.align ≠ 0 then Except.error MemoryError.misaligned
  else if data.length ≠ ty.size then Except.error MemoryError.dataSizeMismatch
  else
    match stackWriteAddr stackSan mem addr data with
    | Except.ok newMem => Except.ok newMem
    | Except.error MemAccessError.outOfBounds =>
      Except.error MemoryError.stackOutOfBounds
    | Except.error MemAccessError.notFound =>
      Except.error MemoryError.addressNotFound

/-- Claim C1 (failing input): an address claimed by no segment at all — the
stack sanitizer holds no allocation containing it, and the heap/statics
stubs claim nothing — fails as a stack out-of-bounds, not as
"address not found in any memory segment"; the heap and statics segments
are never reached because the stack segment never answers `NotFound`. -/
theorem read_addr_unclaimed_is_stack_oob :
    threadReadAddr [] (fun _ => 0) 4096 ⟨1, 1⟩
      = Except.error MemoryError.stackOutOfBounds
    ∧ MemoryError.stackOutOfBounds ≠ MemoryError.addressNotFound
    ∧ threadWriteAddr [] (fun _ => 0) 4096 [7] ⟨1, 1⟩
      = Except.error MemoryError.stackOutOfBounds :=
  ⟨rfl, by decide, rfl⟩

/-! ## Place reads (`interpreter/place.rs`)

`FnInterpreter::read_from_place` first checks the resolved (static) type's
size; a zero-sized place short-circuits to the unit value before the place
address is resolved and before any memory segment or sanitizer is
consulted.  The resolver and the typed memory read are abstracted as
parameters, so the theorem can quantify over them.
-/

/-- `read_from_place` (place.rs lines 104-113): zero-size short circuit,
otherwise resolve the address and delegate to the memory model. -/
def readFromPlaceSized (tySize : Nat) (resolveAddr : Except String Nat)
    (memRead : Nat → Except String Value) : Except String Value :=
  if tySize = 0 then Except.ok Value.unit
  else
    match resolveAddr with
    | Except.ok addr => memRead addr
    | Except.error e => Except.error e

/-- Claim C8: reading a place whose resolved type has size zero returns the
canonical unit value for every resolver outcome and every memory state —
even a failing resolver or a memory read that would report an
uninitialized/bounds error is never consulted. -/
theorem zero_sized_read_short_circuits :
    ∀ (resolveAddr : Except String Nat) (memRead : Nat → Except String Value),
      readFromPlaceSized 0 resolveAddr memRead = Except.ok Value.unit := by
  intro resolveAddr memRead
  rfl

/-! ## Uninitialized locals (`interpreter/function.rs`)

The cited interpreter iteration stores each local as `Option<Value>`
(`StackFrame = Vec<Option<Value>>`): `run` initializes the frame to
`vec![None; n]` and writes the arguments into locals `1..`;
`assign_to_place` sets `frame[local] = Some(value)`;
`read_from_place` short-circuits only for the empty-tuple (unit) type and
otherwise fails with "Uninitialized local" when the slot is still `None`;
the `Return` terminator reads local 0.
-/

/-- The slice of a local's declared type that `read_from_place` inspects:
the empty tuple, or any other type together with its size. -/
inductive LTy
  | tuple0
  | other (size : Nat)
  deriving DecidableEq, Repr

/-- `size_of` for the modelled local types (the empty tuple has size 0). -/
def LTy.size : LTy → Nat
  | LTy.tuple0 => 0
  | LTy.other n => n

/-- The interpreter errors relevant to place access, one per `bail!`
site. -/
inductive InterpError
  | uninitializedLocal (l : Nat)
  | localOutOfBounds (l : Nat)
  deriving DecidableEq, Repr

/-- Frame initialization in `FnInterpreter::new`/`run`: `vec![None; n]`,
then the arguments written into locals `1..=args.len()`. -/
def initFrame (n : Nat) (args : List Value) : List (Option Value) :=
  args.enum.foldl (fun f p => f.set (p.1 + 1) (some p.2))
    (List.replicate n (Option.none))

/-- `FnInterpreter::assign_to_place` for a projection-free place. -/
def assignToPlace (frame : List (Option Value)) (l : Nat) (v : Value) :
    Except InterpError (List (Option Value)) :=
  if frame.length ≤ l then Except.error (InterpError.localOutOfBounds l)
  else Except.ok (frame.set l (some v))

/-- `FnInterpreter::read_from_place` (function.rs lines 343-362): bounds
check, unit-type short circuit, then the `Uninitialized local` failure on a
`None` slot. -/
def readFromPlaceOpt (locals : List LTy) (frame : List (Option Value))
    (l : Nat) : Except InterpError Value :=
  if frame.length ≤ l then Except.error (InterpError.localOutOfBounds l)
  else if locals.getD l (LTy.other 0) = LTy.tuple0 then Except.ok Value.unit
  else
    match frame.getD l Option.none with
    | some v => Except.ok v
    | none => Except.error (InterpError.uninitializedLocal l)

/-- The `Return` terminator arm: read and return the value at local 0. -/
def execReturn (locals : List LTy) (frame : List (Option Value)) :
    Except InterpError Value :=
  readFromPlaceOpt locals frame 0

/-- Applying a sequence of assignments, keeping the frame unchanged when an
assignment reports an error. -/
def applyAssigns (frame : List (Option Value)) (assigns : List (Nat × Value)) :
    List (Option Value) :=
  assigns.foldl (fun f a => ((assignToPlace f a.1 a.2).toOption).getD f) frame

theorem initFrame_length (n : Nat) (args : List Value) :
    (initFrame n args).length = n := by
  unfold initFrame
  suffices h : ∀ (ps : List (Nat × Value)) (f : List (Option Value)),
      (ps.foldl (fun f p => f.set (p.1 + 1) (some p.2)) f).length = f.length by
    rw [h]
    simp
  intro ps
  induction ps with
  | nil => intro f; rfl
  | cons p rest ih =>
    intro f
    simp only [List.foldl_cons, ih, List.length_set]

theorem initFrame_zero (n : Nat) (args : List Value) (hn : 0 < n) :
    (initFrame n args).getD 0 Option.none = Option.none := by
  unfold initFrame
  suffices h : ∀ (ps : List (Nat × Value)) (f : List (Option Value)),
      (∀ p ∈ ps, p.1 + 1 ≠ 0) →
      (ps.foldl (fun f p => f.set (p.1 + 1) (some p.2)) f).getD 0 Option.none
        = f.getD 0 Option.none by
    rw [h args.enum _ (fun p _ => by omega)]
    cases n with
    | zero => omega
    | succ m => rfl
  intro ps
  induction ps with
  | nil => intro f _; rfl
  | cons p rest ih =>
    intro f hne
    simp only [List.foldl_cons]
    rw [ih _ (fun q hq => hne q (List.mem_cons_of_mem _ hq))]
    simp only [List.getD_eq_getElem?_getD]
    rw [List.getElem?_set_ne (by exact hne p (List.mem_cons_self ..))]

theorem applyAssigns_length (frame : List (Option Value))
    (assigns : List (Nat × Value)) :
    (applyAssigns frame assigns).length = frame.length := by
  unfold applyAssigns
  induction assigns generalizing frame with
  | nil => rfl
  | cons a rest ih =>
    simp only [List.foldl_cons]
    rw [ih]
    unfold assignToPlace
    by_cases h : frame.length ≤ a.1
    · rw [if_pos h]
      rfl
    · rw [if_neg h]
      show (frame.set a.1 (some a.2)).length = frame.length
      simp

theorem applyAssigns_zero (frame : List (Option Value))
    (assigns : List (Nat × Value)) (hz : ∀ a ∈ assigns, a.1 ≠ 0)
    (h0 : frame.getD 0 Option.none = Option.none) :
    (applyAssigns frame assigns).getD 0 Option.none = Option.none := by
  unfold applyAssigns
  induction assigns generalizing frame with
  | nil => exact h0
  | cons a rest ih =>
    simp only [List.foldl_cons]
    apply ih _ (fun q hq => hz q (List.mem_cons_of_mem _ hq))
    unfold assignToPlace
    by_cases h : frame.length ≤ a.1
    · rw [if_pos h]
      exact h0
    · rw [if_neg h]
      show (frame.set a.1 (some a.2)).getD 0 Option.none = Option.none
      simp only [List.getD_eq_getElem?_getD]
      rw [List.getElem?_set_ne (hz a (List.mem_cons_self ..))]
      simpa [List.getD_eq_getElem?_getD] using h0

/-- Claim C7: a function body whose return local (local 0) has non-zero
size and is never assigned before a `Return` terminator executes fails with
the "Uninitialized local" error — it does not return a default or
zero-filled value.  Assignments are quantified as any sequence of
projection-free `assign_to_place` operations avoiding local 0, applied
after the frame/argument initialization. -/
theorem uninitialized_return_fails :
    ∀ (locals : List LTy) (args : List Value) (assigns : List (Nat × Value)),
      0 < locals.length →
      (locals.getD 0 (LTy.other 0)).size ≠ 0 →
      (∀ a ∈ assigns, a.1 ≠ 0) →
      execReturn locals (applyAssigns (initFrame locals.length args) assigns)
        = Except.error (InterpError.uninitializedLocal 0) := by
  intro locals args assigns hlen hsize hz
  unfold execReturn readFromPlaceOpt
  have hflen : (applyAssigns (initFrame locals.length args) assigns).length
      = locals.length := by
    rw [applyAssigns_length, initFrame_length]
  have hnb : ¬ (applyAssigns (initFrame locals.length args) assigns).length ≤ 0 := by
    omega
  rw [if_neg hnb]
  have hty : ¬ locals.getD 0 (LTy.other 0) = LTy.tuple0 := by
    intro h
    rw [h] at hsize
    exact hsize rfl
  rw [if_neg hty]
  rw [applyAssigns_zero _ _ hz (initFrame_zero locals.length args hlen)]

/-- Witness for C7: a body with a single `i32`-sized return local and no
assignments fails with the uninitialized-local error. -/
theorem uninitialized_return_fails_witness :
    execReturn [LTy.other 4] (applyAssigns (initFrame 1 []) [])
      = Except.error (InterpError.uninitializedLocal 0) :=
  uninitialized_return_fails [LTy.other 4] [] [] (by decide) (by decide)
    (by decide)

/-! ## Operator evaluation (`interpreter/rvalue.rs`)

`BinaryEval for BinOp` dispatches on the static operand type (`RigidTy`)
to `eval_int_binop::<T>` at the width and signedness of that type; the
arithmetic operators use Rust `checked_add`/`checked_sub`/`checked_mul`/
`checked_div` (an out-of-range exact result is an overflow error, never a
wrap), division checks the divisor for zero first, and every unlisted
operator (e.g. `Rem`) falls to the "Unsupported integer binary operation"
arm.  A `checked` result is modelled as an exact `Int` result together with
an explicit range test against the type's bounds.
-/

/-- The MIR binary operators handled (plus `rem`, which reaches the
unsupported arm). -/
inductive BinOp
  | add | sub | mul | div | rem
  | bitAnd | bitOr | bitXor
  | eq | ne | lt | le | gt | ge
  deriving DecidableEq, Repr

/-- Error classes of the rvalue evaluator, one per failure site:
`overflow`/`divisionByZero` are `ArithmeticFault`-class, `unsupported` is
the unsupported-operation arm, `typeMismatchPanic` models the `unwrap` on a
value whose byte length does not match the operand type. -/
inductive EvalError
  | overflow (op : BinOp)
  | divisionByZero
  | unsupported
  | typeMismatchPanic
  deriving DecidableEq, Repr

/-- `l.as_type::<T>()` at the dispatched signedness and width. -/
def decodeTyped : Bool → Nat → Value → Option Int
  | true, w, v => v.as_int w
  | false, w, v => (v.as_uint w).map Int.ofNat

/-- `Value::from_type::<T>(x)`: the little-endian bytes of the result. -/
def encodeTyped (w : Nat) (i : Int) : Value := Value.of_int w i

/-- The inclusive lower bound of the dispatched integer type (`T::MIN`). -/
def intBoundsLo : Bool → Nat → Int
  | true, w => -(2 ^ (8 * w - 1))
  | false, _ => 0

/-- The inclusive upper bound of the dispatched integer type (`T::MAX`). -/
def intBoundsHi : Bool → Nat → Int
  | true, w => 2 ^ (8 * w - 1) - 1
  | false, w => 2 ^ (8 * w) - 1

/-- Representability at the dispatched type: exactly when the corresponding
Rust `checked_*` operation succeeds. -/
def InRange (signed : Bool) (w : Nat) (i : Int) : Prop :=
  intBoundsLo signed w ≤ i ∧ i ≤ intBoundsHi signed w

instance (signed : Bool) (w : Nat) (i : Int) : Decidable (InRange signed w i) := by
  unfold InRange
  infer_instance

/-- The unsigned `w`-byte bit pattern of an integer (used by the bitwise
operators, which act on the two's-complement representation). -/
def bitPattern (w : Nat) (i : Int) : Nat := (i.emod (2 ^ (8 * w))).toNat

/-- `eval_int_binop::<T>` (rvalue.rs lines 97-147): decode both operands at
the static type (`unwrap` panics on a length mismatch), then checked
arithmetic, bitwise ops, comparisons; anything else is unsupported. -/
def evalIntBinop (signed : Bool) (w : Nat) (op : BinOp) (l r : Value) :
    Except EvalError Value :=
  match decodeTyped signed w l, decodeTyped signed w r with
  | some a, some b =>
    (match op with
     | BinOp.add =>
       if intBoundsLo signed w ≤ a + b ∧ a + b ≤ intBoundsHi signed w then
         Except.ok (encodeTyped w (a + b))
       else Except.error (EvalError.overflow BinOp.add)
     | BinOp.sub =>
       if intBoundsLo signed w ≤ a - b ∧ a - b ≤ intBoundsHi signed w then
         Except.ok (encodeTyped w (a - b))
       else Except.error (EvalError.overflow BinOp.sub)
     | BinOp.mul =>
       if intBoundsLo signed w ≤ a * b ∧ a * b ≤ intBoundsHi signed w then
         Except.ok (encodeTyped w (a * b))
       else Except.error (EvalError.overflow BinOp.mul)
     | BinOp.div =>
       if b = 0 then Except.error EvalError.divisionByZero
       else if intBoundsLo signed w ≤ a.tdiv b ∧ a.tdiv b ≤ intBoundsHi signed w then
         Except.ok (encodeTyped w (a.tdiv b))
       else Except.error (EvalError.overflow BinOp.div)
     | BinOp.bitAnd =>
       Except.ok ⟨encodeLE w (Nat.land (bitPattern w a) (bitPattern w b))⟩
     | BinOp.bitOr =>
       Except.ok ⟨encodeLE w (Nat.lor (bitPattern w a) (bitPattern w b))⟩
     | BinOp.bitXor =>
       Except.ok ⟨encodeLE w (Nat.xor (bitPattern w a) (bitPattern w b))⟩
     | BinOp.eq => Except.ok (Value.from_bool (decide (a = b)))
     | BinOp.ne => Except.ok (Value.from_bool (decide (¬ a = b)))
     | BinOp.lt => Except.ok (Value.from_bool (decide (a < b)))
     | BinOp.le => Except.ok (Value.from_bool (decide (a ≤ b)))
     | BinOp.gt => Except.ok (Value.from_bool (decide (b < a)))
     | BinOp.ge => Except.ok (Value.from_bool (decide (b ≤ a)))
     | BinOp.rem => Except.error EvalError.unsupported)
  | _, _ => Except.error EvalError.typeMismatchPanic

/-- `eval_bool_binop` (rvalue.rs lines 150-161). -/
def evalBoolBinop (op : BinOp) (l r : Value) : Except EvalError Value :=
  match l.as_bool, r.as_bool with
  | some a, some b =>
    (match op with
     | BinOp.bitAnd => Except.ok (Value.from_bool (a && b))
     | BinOp.bitOr => Except.ok (Value.from_bool (a || b))
     | BinOp.eq => Except.ok (Value.from_bool (a == b))
     | BinOp.ne => Except.ok (Value.from_bool (a != b))
     | _ => Except.error EvalError.unsupported)
  | _, _ => Except.error EvalError.typeMismatchPanic

/-- The twelve dispatched integer type names (`IntTy`/`UintTy`); the target
machine matches the host, so `isize`/`usize` are 8 bytes. -/
inductive IntKind
  | i8 | i16 | i32 | i64 | i128 | isize
  | u8 | u16 | u32 | u64 | u128 | usize
  deriving DecidableEq, Repr

def IntKind.signed : IntKind → Bool
  | IntKind.i8 | IntKind.i16 | IntKind.i32 | IntKind.i64
  | IntKind.i128 | IntKind.isize => true
  | _ => false

def IntKind.width : IntKind → Nat
  | IntKind.i8 => 1
  | IntKind.i16 => 2
  | IntKind.i32 => 4
  | IntKind.i64 => 8
  | IntKind.i128 => 16
  | IntKind.isize => 8
  | IntKind.u8 => 1
  | IntKind.u16 => 2
  | IntKind.u32 => 4
  | IntKind.u64 => 8
  | IntKind.u128 => 16
  | IntKind.usize => 8

/-- The static operand types dispatched by `BinaryEval for BinOp`. -/
inductive MRigidTy
  | int (k : IntKind)
  | boolTy
  | thinPtr
  | otherTy
  deriving DecidableEq, Repr

/-- `impl BinaryEval for BinOp::eval` (rvalue.rs lines 40-73): dispatch on
the static operand type; thin pointers evaluate as `usize`, other types are
unsupported. -/
def binaryEval (op : BinOp) (l r : Value) (ty : MRigidTy) :
    Except EvalError Value :=
  match ty with
  | MRigidTy.int k => evalIntBinop k.signed k.width op l r
  | MRigidTy.boolTy => evalBoolBinop op l r
  | MRigidTy.thinPtr => evalIntBinop false 8 op l r
  | MRigidTy.otherTy => Except.error EvalError.unsupported

theorem decodeTyped_encodeTyped (signed : Bool) (w : Nat) (hw : 1 ≤ w)
    (i : Int) (h : InRange signed w i) :
    decodeTyped signed w (encodeTyped w i) = some i := by
  obtain ⟨hlo, hhi⟩ := h
  cases signed with
  | true =>
    exact as_int_of_int w i hw hlo (by
      have : intBoundsHi true w = 2 ^ (8 * w - 1) - 1 := rfl
      rw [this] at hhi
      linarith)
  | false =>
    have hlo2 : (0 : Int) ≤ i := hlo
    have hlt : i < (2 : Int) ^ (8 * w) := by
      have : intBoundsHi false w = 2 ^ (8 * w) - 1 := rfl
      rw [this] at hhi
      linarith
    have hemod : i.emod ((2 : Int) ^ (8 * w)) = i := Int.emod_eq_of_lt hlo2 hlt
    have htn : i.toNat < 2 ^ (8 * w) := by
      have h1 : (i.toNat : Int) = i := Int.toNat_of_nonneg hlo2
      have h2 : (i.toNat : Int) < (((2 : Nat) ^ (8 * w) : Nat) : Int) := by
        rw [h1]
        push_cast
        exact hlt
      exact_mod_cast h2
    show (Value.as_uint w (Value.of_int w i)).map Int.ofNat = some i
    unfold Value.of_int
    rw [hemod]
    have hr : Value.as_uint w (Value.of_uint w i.toNat) = some i.toNat :=
      as_uint_of_uint w i.toNat htn
    rw [show (⟨encodeLE w i.toNat⟩ : Value) = Value.of_uint w i.toNat from rfl, hr]
    simp [Int.toNat_of_nonneg hlo2]

theorem intBoundsLo_nonpos (signed : Bool) (w : Nat) :
    intBoundsLo signed w ≤ 0 := by
  cases signed with
  | true =>
    show -(2 : Int) ^ (8 * w - 1) ≤ 0
    exact neg_nonpos.mpr (by positivity)
  | false => exact le_refl 0

theorem one_le_intBoundsHi (signed : Bool) (w : Nat) (hw : 1 ≤ w) :
    1 ≤ intBoundsHi signed w := by
  cases signed with
  | true =>
    show (1 : Int) ≤ 2 ^ (8 * w - 1) - 1
    have h7 : 7 ≤ 8 * w - 1 := by omega
    have := pow_le_pow_right₀ (a := (2 : Int)) (by norm_num) h7
    norm_num at this
    linarith
  | false =>
    show (1 : Int) ≤ 2 ^ (8 * w) - 1
    have h8 : 8 ≤ 8 * w := by omega
    have := pow_le_pow_right₀ (a := (2 : Int)) (by norm_num) h8
    norm_num at this
    linarith

theorem evalIntBinop_checked (signed : Bool) (w : Nat) (hw : 1 ≤ w) :
    (∀ a b : Int, InRange signed w a → InRange signed w b →
      evalIntBinop signed w BinOp.add (encodeTyped w a) (encodeTyped w b)
        = if InRange signed w (a + b) then Except.ok (encodeTyped w (a + b))
          else Except.error (EvalError.overflow BinOp.add))
    ∧ (∀ a b : Int, InRange signed w a → InRange signed w b →
      evalIntBinop signed w BinOp.sub (encodeTyped w a) (encodeTyped w b)
        = if InRange signed w (a - b) then Except.ok (encodeTyped w (a - b))
          else Except.error (EvalError.overflow BinOp.sub))
    ∧ (∀ a b : Int, InRange signed w a → InRange signed w b →
      evalIntBinop signed w BinOp.mul (encodeTyped w a) (encodeTyped w b)
        = if InRange signed w (a * b) then Except.ok (encodeTyped w (a * b))
          else Except.error (EvalError.overflow BinOp.mul))
    ∧ (∀ a b : Int, InRange signed w a → InRange signed w b →
      evalIntBinop signed w BinOp.div (encodeTyped w a) (encodeTyped w b)
        = if b = 0 then Except.error EvalError.divisionByZero
          else if InRange signed w (a.tdiv b) then
            Except.ok (encodeTyped w (a.tdiv b))
          else Except.error (EvalError.overflow BinOp.div))
    ∧ (evalIntBinop signed w BinOp.add
        (encodeTyped w (intBoundsHi signed w)) (encodeTyped w 1)
        = Except.error (EvalError.overflow BinOp.add))
    ∧ (∀ a : Int, InRange signed w a →
      evalIntBinop signed w BinOp.div (encodeTyped w a) (encodeTyped w 0)
        = Except.error EvalError.divisionByZero)
    ∧ (∀ a : Int, InRange signed w a →
      evalIntBinop signed w BinOp.rem (encodeTyped w a) (encodeTyped w 0)
        = Except.error EvalError.unsupported) := by
  have hzero : InRange signed w 0 :=
    ⟨intBoundsLo_nonpos signed w, by linarith [one_le_intBoundsHi signed w hw]⟩
  have hone : InRange signed w 1 :=
    ⟨by linarith [intBoundsLo_nonpos signed w], one_le_intBoundsHi signed w hw⟩
  have hmax : InRange signed w (intBoundsHi signed w) :=
    ⟨by linarith [intBoundsLo_nonpos signed w, one_le_intBoundsHi signed w hw],
     le_refl _⟩
  have key : ∀ (op : BinOp) (a b : Int), InRange signed w a → InRange signed w b →
      evalIntBinop signed w op (encodeTyped w a) (encodeTyped w b)
        = match op with
          | BinOp.add =>
            if intBoundsLo signed w ≤ a + b ∧ a + b ≤ intBoundsHi signed w then
              Except.ok (encodeTyped w (a + b))
            else Except.error (EvalError.overflow BinOp.add)
          | BinOp.sub =>
            if intBoundsLo signed w ≤ a - b ∧ a - b ≤ intBoundsHi signed w then
              Except.ok (encodeTyped w (a - b))
            else Except.error (EvalError.overflow BinOp.sub)
          | BinOp.mul =>
            if intBoundsLo signed w ≤ a * b ∧ a * b ≤ intBoundsHi signed w then
              Except.ok (encodeTyped w (a * b))
            else Except.error (EvalError.overflow BinOp.mul)
          | BinOp.div =>
            if b = 0 then Except.error EvalError.divisionByZero
            else if intBoundsLo signed w ≤ a.tdiv b ∧ a.tdiv b ≤ intBoundsHi signed w then
              Except.ok (encodeTyped w (a.tdiv b))
            else Except.error (EvalError.overflow BinOp.div)
          | BinOp.bitAnd =>
            Except.ok ⟨encodeLE w (Nat.land (bitPattern w a) (bitPattern w b))⟩
          | BinOp.bitOr =>
            Except.ok ⟨encodeLE w (Nat.lor (bitPattern w a) (bitPattern w b))⟩
          | BinOp.bitXor =>
            Except.ok ⟨encodeLE w (Nat.xor (bitPattern w a) (bitPattern w b))⟩
          | BinOp.eq => Except.ok (Value.from_bool (decide (a = b)))
          | BinOp.ne => Except.ok (Value.from_bool (decide (¬ a = b)))
          | BinOp.lt => Except.ok (Value.from_bool (decide (a < b)))
          | BinOp.le => Except.ok (Value.from_bool (decide (a ≤ b)))
          | BinOp.gt => Except.ok (Value.from_bool (decide (b < a)))
          | BinOp.ge => Except.ok (Value.from_bool (decide (b ≤ a)))
          | BinOp.rem => Except.error EvalError.unsupported := by
    intro op a b ha hb
    unfold evalIntBinop
    rw [decodeTyped_encodeTyped signed w hw a ha,
      decodeTyped_encodeTyped signed w hw b hb]
  refine ⟨fun a b ha hb => ?_, fun a b ha hb => ?_, fun a b ha hb => ?_,
    fun a b ha hb => ?_, ?_, fun a ha => ?_, fun a ha => ?_⟩
  · rw [key BinOp.add a b ha hb]
    rfl
  · rw [key BinOp.sub a b ha hb]
    rfl
  · rw [key BinOp.mul a b ha hb]
    rfl
  · rw [key BinOp.div a b ha hb]
    rfl
  · rw [key BinOp.add (intBoundsHi signed w) 1 hmax hone]
    have hno : ¬ (intBoundsLo signed w ≤ intBoundsHi signed w + 1
        ∧ intBoundsHi signed w + 1 ≤ intBoundsHi signed w) := by
      intro hcon
      linarith [hcon.2]
    show (if intBoundsLo signed w ≤ intBoundsHi signed w + 1
          ∧ intBoundsHi signed w + 1 ≤ intBoundsHi signed w then
        Except.ok (encodeTyped w (intBoundsHi signed w + 1))
      else Except.error (EvalError.overflow BinOp.add))
        = Except.error (EvalError.overflow BinOp.add)
    rw [if_neg hno]
  · rw [key BinOp.div a 0 ha hzero]
    rfl
  · rw [key BinOp.rem a 0 ha hzero]

/-- Claim C3: for each of the twelve dispatched integer types, `add`,
`sub`, `mul` and `div` evaluate by the static operand type with
width-correct checked arithmetic: the result is produced exactly when the
exact result is representable at that width and is an `ArithmeticFault`
otherwise (never a wrap); `MAX + 1` overflows at every width; division by
zero fails for signed and unsigned operands alike; the unimplemented
remainder operator also fails (as unsupported) for a zero divisor. -/
theorem int_binop_checked_arithmetic :
    ∀ k : IntKind,
      (∀ a b : Int, InRange k.signed k.width a → InRange k.signed k.width b →
        binaryEval BinOp.add (encodeTyped k.width a) (encodeTyped k.width b)
            (MRigidTy.int k)
          = if InRange k.signed k.width (a + b) then
              Except.ok (encodeTyped k.width (a + b))
            else Except.error (EvalError.overflow BinOp.add))
      ∧ (∀ a b : Int, InRange k.signed k.width a → InRange k.signed k.width b →
        binaryEval BinOp.sub (encodeTyped k.width a) (encodeTyped k.width b)
            (MRigidTy.int k)
          = if InRange k.signed k.width (a - b) then
              Except.ok (encodeTyped k.width (a - b))
            else Except.error (EvalError.overflow BinOp.sub))
      ∧ (∀ a b : Int, InRange k.signed k.width a → InRange k.signed k.width b →
        binaryEval BinOp.mul (encodeTyped k.width a) (encodeTyped k.width b)
            (MRigidTy.int k)
          = if InRange k.signed k.width (a * b) then
              Except.ok (encodeTyped k.width (a * b))
            else Except.error (EvalError.overflow BinOp.mul))
      ∧ (∀ a b : Int, InRange k.signed k.width a → InRange k.signed k.width b →
        binaryEval BinOp.div (encodeTyped k.width a) (encodeTyped k.width b)
            (MRigidTy.int k)
          = if b = 0 then Except.error EvalError.divisionByZero
            else if InRange k.signed k.width (a.tdiv b) then
              Except.ok (encodeTyped k.width (a.tdiv b))
            else Except.error (EvalError.overflow BinOp.div))
      ∧ (binaryEval BinOp.add (encodeTyped k.width (intBoundsHi k.signed k.width))
            (encodeTyped k.width 1) (MRigidTy.int k)
          = Except.error (EvalError.overflow BinOp.add))
      ∧ (∀ a : Int, InRange k.signed k.width a →
        binaryEval BinOp.div (encodeTyped k.width a) (encodeTyped k.width 0)
            (MRigidTy.int k)
          = Except.error EvalError.divisionByZero)
      ∧ (∀ a : Int, InRange k.signed k.width a →
        binaryEval BinOp.rem (encodeTyped k.width a) (encodeTyped k.width 0)
            (MRigidTy.int k)
          = Except.error EvalError.unsupported) := by
  intro k
  have hw : 1 ≤ k.width := by cases k <;> decide
  exact evalIntBinop_checked k.signed k.width hw

/-- Witness for C3 at concrete inputs: `i8` addition in range produces the
sum, `i8` `MAX + 1` overflows, and unsigned division by zero fails. -/
theorem int_binop_checked_arithmetic_witness :
    binaryEval BinOp.add (encodeTyped 1 100) (encodeTyped 1 27)
        (MRigidTy.int IntKind.i8) = Except.ok (encodeTyped 1 127)
    ∧ binaryEval BinOp.add (encodeTyped 1 (intBoundsHi true 1)) (encodeTyped 1 1)
        (MRigidTy.int IntKind.i8) = Except.error (EvalError.overflow BinOp.add)
    ∧ binaryEval BinOp.div (encodeTyped 1 7) (encodeTyped 1 0)
        (MRigidTy.int IntKind.u8) = Except.error EvalError.divisionByZero := by
  refine ⟨?_, ?_, ?_⟩
  · have h := (int_binop_checked_arithmetic IntKind.i8).1 100 27
      (by constructor <;> decide) (by constructor <;> decide)
    have hc : InRange IntKind.i8.signed IntKind.i8.width (100 + 27) := by
      constructor <;> decide
    rw [if_pos hc] at h
    exact h
  · exact (int_binop_checked_arithmetic IntKind.i8).2.2.2.2.1
  · exact (int_binop_checked_arithmetic IntKind.u8).2.2.2.2.2.1 7
      (by constructor <;> decide)

/-! ## SwitchInt discriminant normalization (`interpreter/function.rs`
lines 158-181, and the equivalent arm in `interpreter.rs`)

The `SwitchInt` arm converts the evaluated discriminant with
`as_i128() as u128`, then `as_u128()`, then `as_bool()` (1/0), and scans
the branch table for an exact `u128` match, else takes the `otherwise`
target.  In these interpreter iterations integer constants are decoded
into the full 16-byte `i128`/`u128` representation (`evaluate_constant`),
so the conversion acts on the 128-bit representation — the declared width
of the discriminant's type is never consulted.
-/

/-- `SwitchTargets`: the branch table (value, target) plus the `otherwise`
target. -/
structure SwitchTargets where
  branches : List (Nat × Nat)
  otherwise : Nat
  deriving DecidableEq, Repr

/-- Scan the branch table for an exact match, else `otherwise`. -/
def branchLookup (d : Nat) (ts : SwitchTargets) : Nat :=
  match ts.branches.find? (fun br => br.1 == d) with
  | some br => br.2
  | none => ts.otherwise

/-- The discriminant conversion of the `SwitchInt` arm: `as_i128` cast to
`u128` (the same 128-bit pattern), else `as_u128`, else `as_bool` as 1/0,
else a fatal "cannot switch on non-integer value" error (`none`). -/
def switchDiscrToInt (v : Value) : Option Nat :=
  match v.as_i128 with
  | some i => some ((i.emod (2 ^ 128)).toNat)
  | none =>
    match v.as_u128 with
    | some u => some u
    | none =>
      match v.as_bool with
      | some b => some (if b then 1 else 0)
      | none => none

/-- The `SwitchInt` arm: convert the discriminant, then look up the
target. -/
def switchTarget (v : Value) (ts : SwitchTargets) : Option Nat :=
  (switchDiscrToInt v).map (fun d => branchLookup d ts)

/-- The discriminant rule asserted by the specification — reinterpret the
discriminant as the unsigned bit pattern of its declared width (`w` bytes)
before the table lookup.  Stated only for comparison with the code's
`switchTarget`. -/
def specSwitchDiscr (w : Nat) (i : Int) : Nat :=
  (i.emod (2 ^ (8 * w))).toNat

/-- The claimed `SwitchInt` behaviour on a signed discriminant of declared
width `w`: normalize to the `w`-byte unsigned pattern, then look up. -/
def specSwitchTarget (w : Nat) (i : Int) (ts : SwitchTargets) : Nat :=
  branchLookup (specSwitchDiscr w i) ts

/-- `evaluate_constant` for `Int`-typed constants (function.rs): decode the
little-endian bytes at their own width, sign-extend to `i128`, and store
the 16-byte representation. -/
def evaluateIntConstant (bytes : List Nat) : Option Value :=
  if bytes.length = 1 ∨ bytes.length = 2 ∨ bytes.length = 4
      ∨ bytes.length = 8 ∨ bytes.length = 16 then
    some (Value.from_i128 (toSigned bytes.length (decodeLE bytes)))
  else none

theorem toSigned_emod_cancel (w : Nat) (d : Nat)
    (hd : d < 2 ^ (8 * w)) :
    ((toSigned w d).emod (2 ^ (8 * w))).toNat = d := by
  have hcast : (((2 : Nat) ^ (8 * w) : Nat) : Int) = (2 : Int) ^ (8 * w) := by
    push_cast
    rfl
  have hdI : (d : Int) < (2 : Int) ^ (8 * w) := by
    rw [← hcast]
    exact_mod_cast hd
  have hd0 : (0 : Int) ≤ (d : Int) := by positivity
  unfold toSigned
  by_cases h : d < 2 ^ (8 * w - 1)
  · rw [if_pos h]
    show (((d : Int) % (2 ^ (8 * w))).toNat = d)
    rw [Int.emod_eq_of_lt hd0 hdI]
    simp
  · rw [if_neg h]
    show ((((d : Int) - 2 ^ (8 * w)) % (2 ^ (8 * w))).toNat = d)
    rw [Int.sub_emod, Int.emod_self, sub_zero, Int.emod_emod_of_dvd _ (dvd_refl _),
      Int.emod_eq_of_lt hd0 hdI]
    simp

theorem switchDiscrToInt_len16 (v : Value) (hwf : v.Wf)
    (hlen : v.data.length = 16) :
    switchDiscrToInt v = some (decodeLE v.data) := by
  have hd : decodeLE v.data < 2 ^ (8 * 16) := by
    rw [two_pow_eq_256_pow]
    have := decodeLE_lt v.data hwf
    rw [hlen] at this
    exact this
  have hi : v.as_i128 = some (toSigned 16 (decodeLE v.data)) := by
    show (v.as_uint 16).map (toSigned 16) = _
    unfold Value.as_uint
    rw [if_pos hlen]
    rfl
  unfold switchDiscrToInt
  rw [hi]
  show some (((toSigned 16 (decodeLE v.data)).emod (2 ^ (8 * 16))).toNat)
      = some (decodeLE v.data)
  rw [toSigned_emod_cancel 16 (decodeLE v.data) hd]

theorem switchDiscrToInt_len1 (v : Value) (hlen : v.data.length = 1) :
    switchDiscrToInt v = some (if v.data.getD 0 0 = 0 then 0 else 1) := by
  have hi : v.as_i128 = none := as_int_len_mismatch v 16 (by
    show v.data.length ≠ 16
    omega)
  have hu : v.as_u128 = none := as_uint_len_mismatch v 16 (by
    show v.data.length ≠ 16
    omega)
  obtain ⟨data⟩ := v
  cases data with
  | nil => simp at hlen
  | cons a tail =>
    cases tail with
    | nil =>
      unfold switchDiscrToInt
      rw [hi, hu]
      show some (if (a != 0) then 1 else 0) = some (if a = 0 then 0 else 1)
      by_cases ha : a = 0
      · subst ha
        rfl
      · simp [ha]
    | cons b tl => simp at hlen

theorem switchDiscrToInt_other_len (v : Value) (h16 : v.data.length ≠ 16)
    (h1 : v.data.length ≠ 1) : switchDiscrToInt v = none := by
  have hi : v.as_i128 = none := as_int_len_mismatch v 16 h16
  have hu : v.as_u128 = none := as_uint_len_mismatch v 16 h16
  have hb : v.as_bool = none := as_bool_len_mismatch v h1
  unfold switchDiscrToInt
  rw [hi, hu, hb]

/-- Claim C4 counterexample: the discriminant `-1` of an 8-bit type — whose
runtime value the interpreter builds as the sign-extended 16-byte
representation of its 1-byte constant `0xff` — does NOT compare as 255:
against the branch table `{255 ↦ 1, otherwise ↦ 2}` the code takes the
`otherwise` target 2 while the claimed declared-width rule selects
target 1. -/
theorem switch_discr_counterexample :
    evaluateIntConstant [255] = some (Value.from_i128 (-1))
    ∧ switchTarget (Value.from_i128 (-1)) ⟨[(255, 1)], 2⟩ = some 2
    ∧ specSwitchTarget 1 (-1) ⟨[(255, 1)], 2⟩ = 1
    ∧ (2 : Nat) ≠ 1 := by
  refine ⟨by decide, by decide, by decide, by decide⟩

/-- Claim C4 (amended): the `SwitchInt` discriminant is normalized by its
runtime representation, not by its declared width: a well-formed 16-byte
value compares as its full 128-bit unsigned bit pattern (so a negative
signed discriminant of a narrower declared type, stored sign-extended in
the interpreter's 16-byte representation, compares as its 128-bit pattern
— e.g. `-1` as `2^128 - 1`, not 255); a 1-byte value is treated as a
boolean and compares as 0 or 1; any other length is a fatal error; the
branch table is scanned for an exact match of that number, else the
`otherwise` target is taken. -/
theorem switch_discr_by_representation :
    ∀ (v : Value) (ts : SwitchTargets) (i : Int),
      (v.Wf → v.len = 16 →
        switchTarget v ts = some (branchLookup (decodeLE v.data) ts))
      ∧ (v.len = 1 →
        switchTarget v ts
          = some (branchLookup (if v.data.getD 0 0 = 0 then 0 else 1) ts))
      ∧ (v.len ≠ 16 → v.len ≠ 1 → switchTarget v ts = none)
      ∧ switchTarget (Value.of_int 16 i) ts
          = some (branchLookup ((i.emod (2 ^ 128)).toNat) ts) := by
  intro v ts i
  refine ⟨fun hwf hlen => ?_, fun hlen => ?_, fun h16 h1 => ?_, ?_⟩
  · unfold switchTarget
    rw [switchDiscrToInt_len16 v hwf hlen]
    rfl
  · unfold switchTarget
    rw [switchDiscrToInt_len1 v hlen]
    rfl
  · unfold switchTarget
    rw [switchDiscrToInt_other_len v h16 h1]
    rfl
  · have hwf : (Value.of_int 16 i).Wf := fun b hb => encodeLE_bytes_lt _ _ b hb
    have hlen : (Value.of_int 16 i).data.length = 16 := encodeLE_length ..
    have h1 : 0 ≤ i.emod ((2 : Int) ^ (8 * 16)) := Int.emod_nonneg i (by norm_num)
    have h2 : i.emod ((2 : Int) ^ (8 * 16)) < (2 : Int) ^ (8 * 16) :=
      Int.emod_lt_of_pos i (by norm_num)
    have hn : (i.emod ((2 : Int) ^ (8 * 16))).toNat < 256 ^ 16 := by
      rw [← two_pow_eq_256_pow]
      have h3 : ((i.emod ((2 : Int) ^ (8 * 16))).toNat : Int)
          < (((2 : Nat) ^ (8 * 16) : Nat) : Int) := by
        rw [Int.toNat_of_nonneg h1]
        push_cast
        exact h2
      exact_mod_cast h3
    unfold switchTarget
    rw [switchDiscrToInt_len16 _ hwf hlen,
      show (Value.of_int 16 i).data
        = encodeLE 16 ((i.emod ((2 : Int) ^ (8 * 16))).toNat) from rfl,
      decodeLE_encodeLE, Nat.mod_eq_of_lt hn]
    rfl

/-- Witness for the amended C4 at concrete inputs: a 16-byte value compares
by its 128-bit pattern, a boolean compares as 1, and a 4-byte value is
rejected. -/
theorem switch_discr_by_representation_witness :
    switchTarget (Value.of_uint 16 255) ⟨[(255, 7)], 9⟩ = some 7
    ∧ switchTarget (Value.from_bool true) ⟨[(1, 4)], 5⟩ = some 4
    ∧ switchTarget (Value.of_uint 4 255) ⟨[(255, 7)], 9⟩ = none := by
  refine ⟨?_, ?_, ?_⟩
  · have h := (switch_discr_by_representation (Value.of_uint 16 255)
      ⟨[(255, 7)], 9⟩ 0).1 (by decide) (by decide)
    rw [h]
    decide
  · have h := (switch_discr_by_representation (Value.from_bool true)
      ⟨[(1, 4)], 5⟩ 0).2.1 (by decide)
    rw [h]
    decide
  · exact (switch_discr_by_representation (Value.of_uint 4 255)
      ⟨[(255, 7)], 9⟩ 0).2.2.1 (by decide) (by decide)
